import Mathlib

/-!
Verification of the hyperfocus-agent context/orchestration core.

This file shallowly embeds the parts of the Python source that the
properties below are about:

* `src/hyperfocus_agent/context_builder.py` — `build_context`
* `src/hyperfocus_agent/llm_router.py` — `LLMRouter.complete`,
  `_calculate_total_message_length`, `_has_image_content`,
  `_handle_streaming_response`
* `src/hyperfocus_agent/task_executor.py` — `_split_simple`,
  `_split_into_pages`, `execute_task_with_paging`, `_concatenate_results`
* `src/hyperfocus_agent/tool_router.py` — `execute_tool_calls`
* `src/hyperfocus_agent/main.py` — startup configuration checks and
  `ToolResultMetadata` stamping

Python dicts keyed by `tool_call_id` are modelled as lookup functions
`String → Option _`; dicts keyed by the streaming tool-call index are
modelled as insertion-ordered association lists.  Python `int` is `Int`
where subtraction matters, `Nat` for lengths and indices.  Python string
truthiness (`if s:`) is modelled explicitly where the source relies on it.
-/

namespace HyperfocusAgent

/-- One typed content block of a structured (list-valued) message content,
a `{"type": ..., "text": ...}` dict in the source.  `btype` is the
`"type"` tag; `text` is the `"text"` field with the source's `""` default
(`item.get("text", "")`); non-text blocks simply carry an unused `text`. -/
structure Block where
  btype : String
  text : String
  deriving DecidableEq, Repr

/-- Message content: Python `None`, a plain string, or a list of typed
blocks — the three shapes `llm_router.py` and `context_builder.py`
distinguish at runtime. -/
inductive MsgContent where
  | null : MsgContent
  | str (s : String) : MsgContent
  | blocks (bs : List Block) : MsgContent
  deriving DecidableEq, Repr

/-- A chat message, restricted to the fields the context builder and the
router read or write: `role`, `tool_call_id` (absent on non-tool
messages), and `content`. -/
structure Msg where
  role : String
  tool_call_id : Option String
  content : MsgContent
  deriving DecidableEq, Repr

/-- Per-`tool_call_id` metadata as stamped by `main.py` (lines 154-165):
`include_in_context`, `function_name`, `stub_message` and
`created_at_iteration` are always present; `context_guidance` is present
only when the tool result supplied it. -/
structure ToolResultMetadata where
  include_in_context : Bool
  function_name : String
  stub_message : String
  created_at_iteration : Int
  context_guidance : Option String
  deriving DecidableEq, Repr

/-- The stub text built in `context_builder.py` lines 68-76: the
`stub_message`, with `context_guidance` appended after a blank line when
it is present and non-empty (Python truthiness of
`if context_guidance:`). -/
def stubContent (md : ToolResultMetadata) : String :=
  match md.context_guidance with
  | some g => if g = "" then md.stub_message else md.stub_message ++ "\n\n" ++ g
  | none => md.stub_message

/-- The per-message body of the loop in `context_builder.build_context`
(lines 43-93).  `msg.get("tool_call_id") or ""` is `Option.getD _ ""`
(Python `or` maps both `None` and `""` to `""`); the stub replaces the
message with a fresh `{"role": "tool", "tool_call_id": ..., "content":
...}` dict. -/
def buildContextMsg (tool_result_metadata : String → Option ToolResultMetadata)
    (current_iteration : Int) (msg : Msg) : Msg :=
  if msg.role = "tool" then
    let tool_call_id := msg.tool_call_id.getD ""
    match tool_result_metadata tool_call_id with
    | none => msg
    | some metadata =>
      if metadata.include_in_context = false ∧
          metadata.created_at_iteration < current_iteration - 1 then
        { role := "tool", tool_call_id := some tool_call_id,
          content := MsgContent.str (stubContent metadata) }
      else
        msg
  else
    msg

/-- `context_builder.build_context`: the loop appends exactly one output
message per input message, so it is a map of `buildContextMsg`. -/
def build_context (messages : List Msg)
    (tool_result_metadata : String → Option ToolResultMetadata)
    (current_iteration : Int) : List Msg :=
  messages.map (buildContextMsg tool_result_metadata current_iteration)

lemma build_context_getElem? (messages : List Msg)
    (meta : String → Option ToolResultMetadata) (k : Int) (i : Nat) :
    (build_context messages meta k)[i]? =
      (messages[i]?).map (buildContextMsg meta k) := by
  simp [build_context]

lemma buildContextMsg_role_tcid (meta : String → Option ToolResultMetadata)
    (k : Int) (m : Msg) (h : m.role = "tool" → m.tool_call_id.isSome) :
    (buildContextMsg meta k m).role = m.role ∧
      (buildContextMsg meta k m).tool_call_id = m.tool_call_id ∧
      (m.role ≠ "tool" → buildContextMsg meta k m = m) := by
  unfold buildContextMsg
  by_cases hr : m.role = "tool"
  · simp only [hr, if_pos rfl]
    rcases Option.isSome_iff_exists.mp (h hr) with ⟨t, ht⟩
    cases hm : meta (m.tool_call_id.getD "") with
    | none => simp [hr]
    | some md =>
      by_cases hs : md.include_in_context = false ∧ md.created_at_iteration < k - 1
      · simp [hs, hr, ht]
      · simp [hs, hr]
  · simp [hr]

lemma buildContextMsg_cases (meta : String → Option ToolResultMetadata)
    (k : Int) (m : Msg) (md : ToolResultMetadata)
    (hrole : m.role = "tool") (hmd : meta (m.tool_call_id.getD "") = some md) :
    buildContextMsg meta k m =
      if md.include_in_context = false ∧ md.created_at_iteration < k - 1 then
        { role := "tool", tool_call_id := some (m.tool_call_id.getD ""),
          content := MsgContent.str (stubContent md) }
      else m := by
  unfold buildContextMsg
  simp [hrole, hmd]

/-- C1: for every message log, metadata map and current iteration `k`,
`build_context` replaces the content of a tool-role message whose
`tool_call_id` has recorded metadata with its stub (the `stub_message`,
with `context_guidance` appended as its own paragraph when present) iff
the metadata's `include_in_context` is `False` and
`k - created_at_iteration ≥ 2`; for `k - created_at_iteration < 2`
(in particular ages 0 and 1) the message is kept in full. -/
theorem build_context_stubs_iff_excluded_and_aged
    (messages : List Msg) (meta : String → Option ToolResultMetadata)
    (k : Int) (i : Nat) (m : Msg) (md : ToolResultMetadata)
    (hm : messages[i]? = some m) (hrole : m.role = "tool")
    (hmd : meta (m.tool_call_id.getD "") = some md) :
    ((md.include_in_context = false ∧ 2 ≤ k - md.created_at_iteration) →
      (build_context messages meta k)[i]? =
        some { role := "tool", tool_call_id := some (m.tool_call_id.getD ""),
               content := MsgContent.str (stubContent md) }) ∧
    ((md.include_in_context = true ∨ k - md.created_at_iteration < 2) →
      (build_context messages meta k)[i]? = some m) := by
  have key := buildContextMsg_cases meta k m md hrole hmd
  constructor
  · rintro ⟨h1, h2⟩
    have hcond : md.include_in_context = false ∧ md.created_at_iteration < k - 1 :=
      ⟨h1, by omega⟩
    rw [build_context_getElem?, hm, Option.map_some', key, if_pos hcond]
  · intro h
    have hcond : ¬ (md.include_in_context = false ∧
        md.created_at_iteration < k - 1) := by
      rcases h with h | h
      · rintro ⟨h1, _⟩
        rw [h] at h1
        simp at h1
      · rintro ⟨_, h2⟩
        omega
    rw [build_context_getElem?, hm, Option.map_some', key, if_neg hcond]

def c1msg : Msg :=
  { role := "tool", tool_call_id := some "abc123",
    content := MsgContent.str "42 files found" }

def c1md : ToolResultMetadata :=
  { include_in_context := false, function_name := "list_directory",
    stub_message := "[list_directory result from previous iteration]",
    created_at_iteration := 2, context_guidance := none }

def c1meta : String → Option ToolResultMetadata :=
  fun s => if s = "abc123" then some c1md else none

/-- Witness for C1: a tool result recorded at iteration 2 with
`include_in_context = False`, projected at iteration 4, is stubbed. -/
theorem build_context_stubs_iff_excluded_and_aged_witness :
    (build_context [c1msg] c1meta 4)[0]? =
      some { role := "tool", tool_call_id := some "abc123",
             content :=
               MsgContent.str "[list_directory result from previous iteration]" } :=
  (build_context_stubs_iff_excluded_and_aged [c1msg] c1meta 4 0 c1msg c1md
    (by decide) (by decide) (by decide)).1 (by decide)

/-- C9: `build_context` returns exactly one output message per input
message, in order; at every position the role and `tool_call_id` are
unchanged and non-tool messages pass through entirely unchanged, so only
the content of tool-role messages may differ. -/
theorem build_context_frame
    (messages : List Msg) (meta : String → Option ToolResultMetadata) (k : Int)
    (htyped : ∀ m ∈ messages, m.role = "tool" → m.tool_call_id.isSome) :
    (build_context messages meta k).length = messages.length ∧
    ∀ (i : Nat) (m : Msg), messages[i]? = some m →
      ∃ m2, (build_context messages meta k)[i]? = some m2 ∧
        m2.role = m.role ∧ m2.tool_call_id = m.tool_call_id ∧
        (m.role ≠ "tool" → m2 = m) := by
  refine ⟨by simp [build_context], ?_⟩
  intro i m hm
  refine ⟨buildContextMsg meta k m, ?_, ?_⟩
  · rw [build_context_getElem?, hm]
    rfl
  · have hmem : m ∈ messages := by
      rcases List.getElem?_eq_some.mp hm with ⟨hlt, rfl⟩
      exact List.getElem_mem hlt
    exact buildContextMsg_role_tcid meta k m (htyped m hmem)

def c9user : Msg :=
  { role := "user", tool_call_id := none, content := MsgContent.str "hello" }

def c9tool : Msg :=
  { role := "tool", tool_call_id := some "id1",
    content := MsgContent.str "result" }

/-- Witness for C9: on a concrete two-message log the projection keeps
length 2. -/
theorem build_context_frame_witness :
    (build_context [c9user, c9tool] c1meta 4).length = [c9user, c9tool].length :=
  (build_context_frame [c9user, c9tool] c1meta 4 (by decide)).1

/-! ## Stream reconstruction (`llm_router._handle_streaming_response`) -/

/-- The `function` payload of a streamed tool-call delta
(`ChoiceDeltaToolCallFunction`): both fields optional. -/
structure DeltaFunction where
  name : Option String
  arguments : Option String
  deriving DecidableEq, Repr

/-- One streamed tool-call delta (`ChoiceDeltaToolCall`): an integer
`index` plus optional `id`, `type` (here `dtype`) and `function`. -/
structure DeltaToolCall where
  index : Nat
  id : Option String
  dtype : Option String
  function : Option DeltaFunction
  deriving DecidableEq, Repr

/-- One accumulating entry of the `tool_calls_parts` dict in
`_handle_streaming_response` (lines 139-154).  `name` is `Option String`
because at creation Python stores `tool_call.function.name`, which may be
`None`. -/
structure ToolCallPart where
  id : String
  ptype : String
  name : Option String
  arguments : String
  deriving DecidableEq, Repr

/-- Python `x or d` for an optional string `x`: both `None` and `""` fall
through to the default. -/
def pyOr (o : Option String) (d : String) : String :=
  match o with
  | some s => if s = "" then d else s
  | none => d

/-- The fresh dict entry created on first sight of an index
(`_handle_streaming_response` lines 140-147). -/
def initPart (d : DeltaToolCall) : ToolCallPart :=
  { id := pyOr d.id ""
    ptype := pyOr d.dtype "function"
    name := match d.function with
      | some f => f.name
      | none => some ""
    arguments := "" }

/-- Line 149-150: `if tool_call.id: parts['id'] = tool_call.id` —
overwrite with a truthy (non-empty) id, else keep. -/
def updId (p : ToolCallPart) (d : DeltaToolCall) : ToolCallPart :=
  match d.id with
  | some i => if i = "" then p else { p with id := i }
  | none => p

/-- Line 151-152: overwrite the function name with a truthy name delta. -/
def updName (p : ToolCallPart) (d : DeltaToolCall) : ToolCallPart :=
  match d.function with
  | some f =>
    match f.name with
    | some n => if n = "" then p else { p with name := some n }
    | none => p
  | none => p

/-- Line 153-154: append (never overwrite) a truthy arguments delta. -/
def updArgs (p : ToolCallPart) (d : DeltaToolCall) : ToolCallPart :=
  match d.function with
  | some f =>
    match f.arguments with
    | some a => if a = "" then p else { p with arguments := p.arguments ++ a }
    | none => p
  | none => p

/-- The three set-or-append statements applied to one dict entry for one
delta, in source order. -/
def updPart (p : ToolCallPart) (d : DeltaToolCall) : ToolCallPart :=
  updArgs (updName (updId p d) d) d

/-- Lookup in the insertion-ordered association list modelling the
`tool_calls_parts` dict. -/
def lookupPart : List (Nat × ToolCallPart) → Nat → Option ToolCallPart
  | [], _ => none
  | (k, p) :: rest, i => if k = i then some p else lookupPart rest i

/-- In-place value update of an existing key (dict item assignment). -/
def setPart : List (Nat × ToolCallPart) → Nat → ToolCallPart → List (Nat × ToolCallPart)
  | [], i, p => [(i, p)]
  | (k, q) :: rest, i, p =>
    if k = i then (k, p) :: rest else (k, q) :: setPart rest i p

/-- Processing of one tool-call delta (lines 138-154): create the entry
if the index is new (appended in insertion order, as a Python dict does),
then apply the set-or-append updates for this delta. -/
def stepDelta (acc : List (Nat × ToolCallPart)) (d : DeltaToolCall) :
    List (Nat × ToolCallPart) :=
  match lookupPart acc d.index with
  | none => acc ++ [(d.index, updPart (initPart d) d)]
  | some p => setPart acc d.index (updPart p d)

/-- The `tool_calls_parts` dict after consuming a whole sequence of
tool-call deltas in arrival order. -/
def toolCallParts (ds : List DeltaToolCall) : List (Nat × ToolCallPart) :=
  ds.foldl stepDelta []

/-- The arguments delta carried by one streamed tool-call delta
(`tool_call.function.arguments` behind the two `None` guards). -/
def deltaArgOf (d : DeltaToolCall) : Option String :=
  d.function.bind (fun f => f.arguments)

/-- The truthy (non-`None`, non-empty) function-name delta, as tested by
`if tool_call.function and tool_call.function.name:`. -/
def deltaNameOf (d : DeltaToolCall) : Option String :=
  match d.function with
  | some f =>
    match f.name with
    | some n => if n = "" then none else some n
    | none => none
  | none => none

/-- The truthy id delta, as tested by `if tool_call.id:`. -/
def deltaIdOf (d : DeltaToolCall) : Option String :=
  match d.id with
  | some i => if i = "" then none else some i
  | none => none

/-- Plain left-to-right concatenation of a list of strings. -/
def strConcat : List String → String
  | [] => ""
  | s :: rest => s ++ strConcat rest

/-- The concatenation, in arrival order, of all argument deltas carried
by deltas of the given index. -/
def argConcat (ds : List DeltaToolCall) (idx : Nat) : String :=
  strConcat ((ds.filter (fun d => d.index == idx)).filterMap deltaArgOf)

/-- The last truthy function-name delta received for the given index. -/
def lastTruthyName (ds : List DeltaToolCall) (idx : Nat) : Option String :=
  ((ds.filter (fun d => d.index == idx)).filterMap deltaNameOf).getLast?

/-- The last truthy id delta received for the given index. -/
def lastTruthyId (ds : List DeltaToolCall) (idx : Nat) : Option String :=
  ((ds.filter (fun d => d.index == idx)).filterMap deltaIdOf).getLast?

/-- Pure repeated update of one entry by a run of deltas. -/
def updFold (p : ToolCallPart) (ds : List DeltaToolCall) : ToolCallPart :=
  ds.foldl updPart p

lemma getLast?_cons_getD (a : String) (l : List String) :
    (a :: l).getLast? = some (l.getLast?.getD a) := by
  induction l generalizing a with
  | nil => rfl
  | cons b t ih =>
    rw [List.getLast?_cons_cons, ih b]
    cases t.getLast? <;> simp [ih]

lemma updId_fields (p : ToolCallPart) (d : DeltaToolCall) :
    (updId p d).arguments = p.arguments ∧ (updId p d).name = p.name ∧
      (updId p d).id = (deltaIdOf d).getD p.id := by
  unfold updId deltaIdOf
  cases d.id with
  | none => simp
  | some i => by_cases h : i = "" <;> simp [h]

lemma updName_fields (p : ToolCallPart) (d : DeltaToolCall) :
    (updName p d).arguments = p.arguments ∧ (updName p d).id = p.id ∧
      (updName p d).name = ((deltaNameOf d).map some).getD p.name := by
  unfold updName deltaNameOf
  cases d.function with
  | none => simp
  | some f =>
    obtain ⟨fn, fa⟩ := f
    cases fn with
    | none => simp
    | some n => by_cases h : n = "" <;> simp [h]

lemma updArgs_fields (p : ToolCallPart) (d : DeltaToolCall) :
    (updArgs p d).name = p.name ∧ (updArgs p d).id = p.id ∧
      (updArgs p d).arguments = p.arguments ++ (deltaArgOf d).getD "" := by
  unfold updArgs deltaArgOf
  cases d.function with
  | none => simp
  | some f =>
    obtain ⟨fn, fa⟩ := f
    cases fa with
    | none => simp [String.append_empty]
    | some a =>
      by_cases h : a = "" <;> simp [h, String.append_empty]

lemma updPart_arguments (p : ToolCallPart) (d : DeltaToolCall) :
    (updPart p d).arguments = p.arguments ++ (deltaArgOf d).getD "" := by
  unfold updPart
  rw [(updArgs_fields _ d).2.2, (updName_fields _ d).1, (updId_fields p d).1]

lemma updPart_name (p : ToolCallPart) (d : DeltaToolCall) :
    (updPart p d).name = ((deltaNameOf d).map some).getD p.name := by
  unfold updPart
  rw [(updArgs_fields _ d).1, (updName_fields _ d).2.2, (updId_fields p d).2.1]

lemma updPart_id (p : ToolCallPart) (d : DeltaToolCall) :
    (updPart p d).id = (deltaIdOf d).getD p.id := by
  unfold updPart
  rw [(updArgs_fields _ d).2.1, (updName_fields _ d).2.1, (updId_fields p d).2.2]

lemma updFold_arguments (ds : List DeltaToolCall) (p : ToolCallPart) :
    (updFold p ds).arguments = p.arguments ++ strConcat (ds.filterMap deltaArgOf) := by
  induction ds generalizing p with
  | nil => simp [updFold, strConcat, String.append_empty]
  | cons d rest ih =>
    have h1 : updFold p (d :: rest) = updFold (updPart p d) rest := rfl
    rw [h1, ih, updPart_arguments]
    cases h : deltaArgOf d with
    | none => simp [List.filterMap_cons, h, String.append_empty]
    | some a => simp [List.filterMap_cons, h, strConcat, String.append_assoc]

lemma updFold_name (ds : List DeltaToolCall) (p : ToolCallPart) :
    (updFold p ds).name =
      (((ds.filterMap deltaNameOf).getLast?).map some).getD p.name := by
  induction ds generalizing p with
  | nil => simp [updFold]
  | cons d rest ih =>
    have h1 : updFold p (d :: rest) = updFold (updPart p d) rest := rfl
    rw [h1, ih, updPart_name]
    cases h : deltaNameOf d with
    | none => simp [List.filterMap_cons, h]
    | some n =>
      rw [List.filterMap_cons]
      simp only [h]
      rw [getLast?_cons_getD]
      cases (rest.filterMap deltaNameOf).getLast? <;> simp

lemma updFold_id (ds : List DeltaToolCall) (p : ToolCallPart) :
    (updFold p ds).id = ((ds.filterMap deltaIdOf).getLast?).getD p.id := by
  induction ds generalizing p with
  | nil => simp [updFold]
  | cons d rest ih =>
    have h1 : updFold p (d :: rest) = updFold (updPart p d) rest := rfl
    rw [h1, ih, updPart_id]
    cases h : deltaIdOf d with
    | none => simp [List.filterMap_cons, h]
    | some i =>
      rw [List.filterMap_cons]
      simp only [h]
      rw [getLast?_cons_getD]
      cases (rest.filterMap deltaIdOf).getLast? <;> simp

lemma lookupPart_setPart (acc : List (Nat × ToolCallPart)) (i : Nat)
    (p : ToolCallPart) (j : Nat) :
    lookupPart (setPart acc i p) j =
      if i = j then some p else lookupPart acc j := by
  induction acc with
  | nil =>
    simp only [setPart, lookupPart]
  | cons kq rest ih =>
    obtain ⟨k, q⟩ := kq
    by_cases hk : k = i
    · subst hk
      simp only [setPart, if_pos rfl, lookupPart]
      by_cases hj : k = j <;> simp [hj]
    · simp only [setPart, if_neg hk, lookupPart, ih]
      by_cases hj : k = j
      · subst hj
        rw [if_pos rfl, if_pos rfl, if_neg (fun h => hk h.symm)]
      · simp [hj]

lemma lookupPart_append_single (acc : List (Nat × ToolCallPart)) (i : Nat)
    (p : ToolCallPart) (j : Nat) :
    lookupPart (acc ++ [(i, p)]) j =
      match lookupPart acc j with
      | some q => some q
      | none => if i = j then some p else none := by
  induction acc with
  | nil => simp [lookupPart]
  | cons kq rest ih =>
    obtain ⟨k, q⟩ := kq
    by_cases hj : k = j
    · simp [lookupPart, hj]
    · simp only [List.cons_append, lookupPart, if_neg hj]
      exact ih

lemma lookupPart_stepDelta (acc : List (Nat × ToolCallPart)) (d : DeltaToolCall)
    (j : Nat) :
    lookupPart (stepDelta acc d) j =
      if d.index = j then
        some (updPart ((lookupPart acc d.index).getD (initPart d)) d)
      else lookupPart acc j := by
  unfold stepDelta
  cases h : lookupPart acc d.index with
  | none =>
    rw [lookupPart_append_single]
    by_cases hij : d.index = j
    · subst hij
      rw [h]
      simp
    · rw [if_neg hij]
      cases lookupPart acc j <;> simp [hij]
  | some p =>
    rw [lookupPart_setPart]
    by_cases hij : d.index = j
    · subst hij
      simp [h]
    · simp [hij]

lemma lookupPart_foldl (ds : List DeltaToolCall) (acc : List (Nat × ToolCallPart))
    (idx : Nat) :
    lookupPart (ds.foldl stepDelta acc) idx =
      (ds.filter (fun d => d.index == idx)).foldl
        (fun st d => some (updPart (st.getD (initPart d)) d))
        (lookupPart acc idx) := by
  induction ds generalizing acc with
  | nil => rfl
  | cons d rest ih =>
    rw [List.foldl_cons, ih, List.filter_cons]
    by_cases h : d.index = idx
    · have hb : (d.index == idx) = true := by simp [h]
      simp only [hb, if_true, beq_self_eq_true, List.foldl_cons,
        lookupPart_stepDelta, if_pos h, h]
    · have hb : (d.index == idx) = false := by simp [h]
      simp only [hb, Bool.false_eq_true, if_false, lookupPart_stepDelta, if_neg h]

lemma foldl_optStep_some (ds : List DeltaToolCall) (p : ToolCallPart) :
    ds.foldl (fun st d => some (updPart (st.getD (initPart d)) d)) (some p) =
      some (updFold p ds) := by
  induction ds generalizing p with
  | nil => rfl
  | cons d rest ih =>
    rw [List.foldl_cons, Option.getD_some, ih]
    rfl

lemma lookupPart_toolCallParts (ds : List DeltaToolCall) (idx : Nat) :
    lookupPart (toolCallParts ds) idx =
      match ds.filter (fun d => d.index == idx) with
      | [] => none
      | d :: rest => some (updFold (updPart (initPart d) d) rest) := by
  rw [toolCallParts, lookupPart_foldl]
  cases hf : ds.filter (fun d => d.index == idx) with
  | nil => rfl
  | cons d rest =>
    rw [List.foldl_cons]
    have h0 : lookupPart [] idx = none := rfl
    rw [h0, Option.getD_none, foldl_optStep_some]

/-- C2 (amended): for every stream of tool-call deltas and every index
that occurs in the stream, the assembled entry's `arguments` string is
the concatenation, in arrival order, of all argument deltas for that
index — in particular it is `""` (not `"\x7b\x7d"`) when no argument
delta arrived for that index, and reconstruction is split-invariant,
since any two delta streams with the same per-index argument sequence
concatenate to the same string. -/
theorem stream_args_concat (ds : List DeltaToolCall) (idx : Nat)
    (h : ∃ d ∈ ds, d.index = idx) :
    ∃ p, lookupPart (toolCallParts ds) idx = some p ∧
      p.arguments = argConcat ds idx := by
  have hne : ds.filter (fun d => d.index == idx) ≠ [] := by
    rcases h with ⟨d, hd, hidx⟩
    exact List.ne_nil_of_mem (List.mem_filter.mpr ⟨hd, by simp [hidx]⟩)
  rw [lookupPart_toolCallParts]
  cases hf : ds.filter (fun d => d.index == idx) with
  | nil => exact absurd hf hne
  | cons d rest =>
    refine ⟨_, rfl, ?_⟩
    rw [updFold_arguments, updPart_arguments, argConcat, hf,
      List.filterMap_cons]
    have hinit : (initPart d).arguments = "" := rfl
    rw [hinit, String.empty_append]
    cases ha : deltaArgOf d with
    | none => simp [strConcat, String.empty_append]
    | some a => simp [strConcat]

def c2d1 : DeltaToolCall :=
  { index := 0, id := some "call1", dtype := some "function",
    function := some { name := some "f", arguments := some "ab" } }

def c2d2 : DeltaToolCall :=
  { index := 0, id := none, dtype := none,
    function := some { name := none, arguments := some "cd" } }

/-- Witness for C2: a two-delta stream for index 0 whose argument deltas
`"ab"` and `"cd"` assemble to their concatenation. -/
theorem stream_args_concat_witness :
    (∃ p, lookupPart (toolCallParts [c2d1, c2d2]) 0 = some p ∧
      p.arguments = argConcat [c2d1, c2d2] 0) ∧
      argConcat [c2d1, c2d2] 0 = "abcd" :=
  ⟨stream_args_concat [c2d1, c2d2] 0 ⟨c2d1, by decide, by decide⟩, by decide⟩

def c2noargs : DeltaToolCall :=
  { index := 0, id := some "call1", dtype := some "function",
    function := some { name := some "f", arguments := none } }

/-- Counterexample for C2 as stated: when no argument delta arrives for
an index, the assembled `arguments` string is `""`, not `"\x7b\x7d"` —
the source initializes `arguments` to `''` and never substitutes a
`"\x7b\x7d"` default. -/
theorem stream_args_no_default_braces :
    (lookupPart (toolCallParts [c2noargs]) 0).map ToolCallPart.arguments =
        some "" ∧
      (lookupPart (toolCallParts [c2noargs]) 0).map ToolCallPart.arguments ≠
        some "\x7b\x7d" := by
  decide

/-- C10: the assembled tool call's function name (resp. id) for an index
equals the last truthy name (resp. id) delta received for that index —
later deltas overwrite earlier ones. -/
theorem stream_name_id_last_write (ds : List DeltaToolCall) (idx : Nat)
    (p : ToolCallPart) (hp : lookupPart (toolCallParts ds) idx = some p) :
    (∀ n, lastTruthyName ds idx = some n → p.name = some n) ∧
    (∀ i, lastTruthyId ds idx = some i → p.id = i) := by
  rw [lookupPart_toolCallParts] at hp
  cases hf : ds.filter (fun d => d.index == idx) with
  | nil => rw [hf] at hp; exact absurd hp (by simp)
  | cons d rest =>
    rw [hf] at hp
    have hpe : p = updFold (updPart (initPart d) d) rest := by
      exact (Option.some.inj hp).symm
    subst hpe
    constructor
    · intro n hn
      rw [lastTruthyName, hf, List.filterMap_cons] at hn
      rw [updFold_name, updPart_name]
      cases hd : deltaNameOf d with
      | none =>
        rw [hd] at hn
        rw [hn]
        rfl
      | some m =>
        rw [hd, getLast?_cons_getD] at hn
        cases hr : (rest.filterMap deltaNameOf).getLast? with
        | none =>
          rw [hr] at hn
          simp only [Option.getD_none] at hn
          simp [hr, hd, hn]
        | some n2 =>
          rw [hr] at hn
          simp only [Option.getD_some] at hn
          simp [hr, hn]
    · intro i hi
      rw [lastTruthyId, hf, List.filterMap_cons] at hi
      rw [updFold_id, updPart_id]
      cases hd : deltaIdOf d with
      | none =>
        rw [hd] at hi
        rw [hi]
        rfl
      | some m =>
        rw [hd, getLast?_cons_getD] at hi
        cases hr : (rest.filterMap deltaIdOf).getLast? with
        | none =>
          rw [hr] at hi
          simp only [Option.getD_none] at hi
          simp [hr, hd, hi]
        | some i2 =>
          rw [hr] at hi
          simp only [Option.getD_some] at hi
          simp [hr, hi]

def c10d1 : DeltaToolCall :=
  { index := 0, id := some "a", dtype := none,
    function := some { name := some "f1", arguments := none } }

def c10d2 : DeltaToolCall :=
  { index := 0, id := some "b", dtype := none,
    function := some { name := some "f2", arguments := none } }

def c10part : ToolCallPart :=
  { id := "b", ptype := "function", name := some "f2", arguments := "" }

/-- Witness for C10: two deltas for index 0 with names `f1` then `f2`
and ids `a` then `b` assemble to name `f2` and id `b`. -/
theorem stream_name_id_last_write_witness :
    c10part.name = some "f2" ∧ c10part.id = "b" :=
  ⟨(stream_name_id_last_write [c10d1, c10d2] 0 c10part (by decide)).1 "f2"
      (by decide),
   (stream_name_id_last_write [c10d1, c10d2] 0 c10part (by decide)).2 "b"
      (by decide)⟩

/-- Token usage (`CompletionUsage`). -/
structure Usage where
  completion_tokens : Nat
  prompt_tokens : Nat
  total_tokens : Nat
  deriving DecidableEq, Repr

/-- The `CompletionUsage(completion_tokens=0, prompt_tokens=0,
total_tokens=0)` default of `_handle_streaming_response` line 209. -/
def zeroUsage : Usage :=
  { completion_tokens := 0, prompt_tokens := 0, total_tokens := 0 }

/-- One choice of a streamed chunk: its delta (content and tool-call
deltas) and `finish_reason`. -/
structure ChunkChoice where
  delta_content : Option String
  delta_tool_calls : List DeltaToolCall
  finish_reason : Option String
  deriving DecidableEq, Repr

/-- One `ChatCompletionChunk` as read by `_handle_streaming_response`:
its (possibly empty) choices list and optional usage. -/
structure Chunk where
  choices : List ChunkChoice
  usage : Option Usage
  deriving DecidableEq, Repr

/-- The loop body of `_handle_streaming_response` (lines 123-154) for
one chunk: when `chunk.choices` is non-empty, append the first choice's
content delta (if not `None`) to `content_parts` and fold its tool-call
deltas into `tool_calls_parts`. -/
def stepChunk (st : List String × List (Nat × ToolCallPart)) (c : Chunk) :
    List String × List (Nat × ToolCallPart) :=
  match c.choices with
  | [] => st
  | ch :: _ =>
    ((match ch.delta_content with
      | some s => st.1 ++ [s]
      | none => st.1),
     ch.delta_tool_calls.foldl stepDelta st.2)

/-- The assembled completion, restricted to the fields the assembly
fills: message content, assembled tool calls, `finish_reason`, `usage`. -/
structure Completion where
  content : Option String
  tool_calls : Option (List ToolCallPart)
  finish_reason : Option String
  usage : Usage
  deriving DecidableEq, Repr

/-- `_handle_streaming_response` (lines 118-216).  An empty stream raises
`ValueError("No chunks received from stream")`, modelled as `.error`.
Otherwise one completion is always produced: `content` is the joined
content deltas (`None` if none arrived), `tool_calls` the accumulated
parts (`None` if none; the `sorted(...)` key of line 182 reproduces dict
insertion order for pairwise-distinct entries, which is the order used
here), `finish_reason` is the last chunk's first choice's
`finish_reason` — `'stop'` when the last chunk has no choices — and
`usage` is the last chunk's usage, or zero usage when it is `None`. -/
def assembleStream (chunks : List Chunk) : Except String Completion :=
  match chunks.getLast? with
  | none => Except.error "No chunks received from stream"
  | some last =>
    let st := chunks.foldl stepChunk ([], [])
    Except.ok
      { content := if st.1 = [] then none else some (strConcat st.1)
        tool_calls := if st.2 = [] then none else some (st.2.map Prod.snd)
        finish_reason :=
          match last.choices with
          | [] => some "stop"
          | ch :: _ => ch.finish_reason
        usage := (last.usage).getD zeroUsage }

/-- The tool-call deltas a chunk list delivers, in arrival order (the
first choice of each chunk, as the source reads `chunk.choices[0]`). -/
def chunkDeltas (chunks : List Chunk) : List DeltaToolCall :=
  (chunks.map (fun c =>
    match c.choices with
    | [] => []
    | ch :: _ => ch.delta_tool_calls)).flatten

lemma chunkDeltas_cons (c : Chunk) (rest : List Chunk) :
    chunkDeltas (c :: rest) =
      (match c.choices with
       | [] => []
       | ch :: _ => ch.delta_tool_calls) ++ chunkDeltas rest := by
  simp [chunkDeltas]

lemma foldl_stepChunk_snd (chunks : List Chunk)
    (st : List String × List (Nat × ToolCallPart)) :
    (chunks.foldl stepChunk st).2 = (chunkDeltas chunks).foldl stepDelta st.2 := by
  induction chunks generalizing st with
  | nil => rfl
  | cons c rest ih =>
    rw [List.foldl_cons, ih, chunkDeltas_cons, List.foldl_append]
    cases hc : c.choices with
    | nil => simp [stepChunk, hc]
    | cons ch tail => simp [stepChunk, hc]

/-- The parts accumulated by the full chunk loop are exactly
`toolCallParts` of the deltas in arrival order, so the per-index
theorems about `toolCallParts` describe the assembled response. -/
lemma assembleStream_parts (chunks : List Chunk) :
    (chunks.foldl stepChunk ([], [])).2 = toolCallParts (chunkDeltas chunks) :=
  foldl_stepChunk_snd chunks ([], [])

/-- C7 (amended): a stream with at least one event never fails for lack
of a terminal event; an assembled response is always produced, whose
`finish_reason` is the last chunk's first choice's `finish_reason`
(defaulting to `'stop'` when the last chunk has no choices) and whose
`usage` is the last chunk's usage (defaulting to zero usage when
absent).  Only the empty stream is rejected, with a `ValueError`. -/
theorem stream_assembly_total (chunks : List Chunk) (h : chunks ≠ []) :
    ∃ comp, assembleStream chunks = Except.ok comp ∧
      comp.finish_reason =
        (match (chunks.getLast h).choices with
         | [] => some "stop"
         | ch :: _ => ch.finish_reason) ∧
      comp.usage = ((chunks.getLast h).usage).getD zeroUsage := by
  rw [assembleStream, List.getLast?_eq_getLast chunks h]
  exact ⟨_, rfl, rfl, rfl⟩

def c7wchunk : Chunk := { choices := [], usage := none }

/-- Witness for C7 (amended): a one-chunk stream with no choices and no
usage assembles successfully, with `finish_reason = 'stop'` and zero
usage. -/
theorem stream_assembly_total_witness :
    ∃ comp, assembleStream [c7wchunk] = Except.ok comp ∧
      comp.finish_reason = some "stop" ∧ comp.usage = zeroUsage := by
  obtain ⟨comp, h1, h2, h3⟩ := stream_assembly_total [c7wchunk] (by simp)
  exact ⟨comp, h1, by simpa [c7wchunk] using h2, by simpa [c7wchunk] using h3⟩

def c7chunk : Chunk :=
  { choices := [{ delta_content := some "hi", delta_tool_calls := [],
                  finish_reason := none }],
    usage := none }

/-- Counterexample for C7 as stated: a stream with one event and no
terminal `finish_reason`/`usage` does not raise any error — it produces
an assembled response (with `finish_reason = None` and zero usage);
no `IncompleteStreamError` exists in the source. -/
theorem stream_no_terminal_still_assembles :
    assembleStream [c7chunk] =
      Except.ok { content := some "hi", tool_calls := none,
                  finish_reason := none, usage := zeroUsage } := by
  rfl

/-! ## Backend selection (`llm_router.complete`, `main.py` startup) -/

/-- Character contribution of one content block in
`_calculate_total_message_length` (lines 45-47): only `"text"`-typed
blocks count, with `item.get("text", "")`. -/
def blockTextLen (b : Block) : Nat :=
  if b.btype = "text" then b.text.length else 0

/-- Character contribution of one message content: `None` (and, vacuously,
falsy contents, which contribute 0 anyway) are skipped by `if content:`;
strings count whole, block lists sum their text blocks. -/
def contentLength : MsgContent → Nat
  | MsgContent.null => 0
  | MsgContent.str s => s.length
  | MsgContent.blocks bs => (bs.map blockTextLen).sum

/-- `_calculate_total_message_length` (lines 35-48). -/
def totalMessageLength (messages : List Msg) : Nat :=
  (messages.map (fun m => contentLength m.content)).sum

/-- `_has_image_content` (lines 50-58): any message with a list content
holding an `"image_url"`-typed block. -/
def hasImageContent (messages : List Msg) : Bool :=
  messages.any (fun m =>
    match m.content with
    | MsgContent.blocks bs => bs.any (fun b => b.btype = "image_url")
    | _ => false)

/-- The three backends `complete` can route to. -/
inductive Chosen where
  | multimodal
  | remote
  | local
  deriving DecidableEq, Repr

/-- The selection logic of `complete` (lines 79-96): multimodal when
forced or an image block is present — a `ValueError` when the multimodal
client is unconfigured — else remote iff `total_length` exceeds the
threshold (`LLM_ROUTER_THRESHOLD`, default 10000), local otherwise. -/
def completeSelect (messages : List Msg) (force_multimodal : Bool)
    (threshold : Nat) (multimodalConfigured : Bool) : Except String Chosen :=
  if force_multimodal || hasImageContent messages then
    if multimodalConfigured then Except.ok Chosen.multimodal
    else Except.error "Multi-modal model requested but not configured."
  else if totalMessageLength messages > threshold then Except.ok Chosen.remote
  else Except.ok Chosen.local

/-- C5: with no image content (and no forced multimodal), `complete`
routes to the remote backend iff the total text length exceeds the
threshold, and to the local backend otherwise. -/
theorem route_by_length (messages : List Msg) (threshold : Nat) (mm : Bool)
    (h : hasImageContent messages = false) :
    (completeSelect messages false threshold mm = Except.ok Chosen.remote ↔
      totalMessageLength messages > threshold) ∧
    (completeSelect messages false threshold mm = Except.ok Chosen.local ↔
      totalMessageLength messages ≤ threshold) := by
  unfold completeSelect
  rw [h]
  by_cases hl : totalMessageLength messages > threshold <;> simp [hl] <;> omega

def c5msgs : List Msg :=
  [{ role := "user", tool_call_id := none,
     content := MsgContent.str (String.mk (List.replicate 500 'a')) }]

set_option maxRecDepth 4096 in
/-- Witness for C5: a 500-character message with threshold 10000 and no
images selects the local backend. -/
theorem route_by_length_witness :
    completeSelect c5msgs false 10000 true = Except.ok Chosen.local :=
  (route_by_length c5msgs 10000 true (by decide)).2.mpr (by decide)

/-- Python `str.strip()`: remove whitespace from both ends. -/
def pyStrip (s : String) : String :=
  String.mk (((s.data.dropWhile Char.isWhitespace).reverse.dropWhile
    Char.isWhitespace).reverse)

/-- Python truthiness plus `strip()` emptiness of one env string, as
tested in `main.py` lines 49-55: unset when missing, empty, or
whitespace-only. -/
def envUnset (v : Option String) : Bool :=
  match v with
  | none => true
  | some s => pyStrip s = ""

/-- Python plain truthiness of one env string, as tested for the
multimodal triple in `main.py` line 75 (no `strip`). -/
def envTruthy (v : Option String) : Bool :=
  match v with
  | none => false
  | some s => s ≠ ""

/-- One backend's environment configuration triple. -/
structure EnvBackend where
  base_url : Option String
  api_key : Option String
  model : Option String
  deriving DecidableEq, Repr

/-- A general-purpose backend triple counts as configured when none of
its three variables is unset (`main.py` lines 49-55). -/
def envConfigured (b : EnvBackend) : Bool :=
  !(envUnset b.base_url || envUnset b.api_key || envUnset b.model)

/-- `main.py` lines 41-88: startup aborts (prints an error and returns,
modelled as `none`) unless both the local and the remote backend are
fully configured; the multimodal client is optional.  The `Bool` carried
on success records whether a multimodal client was initialized. -/
def mainStartup (localEnv remoteEnv mmEnv : EnvBackend) : Option Bool :=
  if ¬ envConfigured localEnv = true then none
  else if ¬ envConfigured remoteEnv = true then none
  else some (envTruthy mmEnv.base_url && envTruthy mmEnv.api_key &&
    envTruthy mmEnv.model)

/-- C6 (amended): there is no fallback between the general-purpose
backends.  Both are mandatory — startup succeeds iff local and remote
are each fully configured — and, images aside, selection always returns
exactly the backend the length rule picks, never a substitute. -/
theorem backends_mandatory_no_fallback (localEnv remoteEnv mmEnv : EnvBackend) :
    ((mainStartup localEnv remoteEnv mmEnv).isSome = true ↔
      (envConfigured localEnv = true ∧ envConfigured remoteEnv = true)) ∧
    (∀ (messages : List Msg) (threshold : Nat) (mm : Bool),
      hasImageContent messages = false →
        completeSelect messages false threshold mm =
          Except.ok (if totalMessageLength messages > threshold then
            Chosen.remote else Chosen.local)) := by
  constructor
  · unfold mainStartup
    by_cases hl : envConfigured localEnv = true <;>
      by_cases hr : envConfigured remoteEnv = true <;> simp [hl, hr]
  · intro messages threshold mm h
    unfold completeSelect
    rw [h]
    by_cases hl : totalMessageLength messages > threshold <;> simp [hl]

set_option maxRecDepth 4096 in
/-- Witness for C6 (amended): the 500-character no-image scenario goes
to the local backend chosen by the length rule. -/
theorem backends_mandatory_no_fallback_witness :
    completeSelect c5msgs false 10000 true = Except.ok Chosen.local := by
  have h := (backends_mandatory_no_fallback
    ⟨some "u", some "k", some "m"⟩ ⟨some "u", some "k", some "m"⟩
    ⟨none, none, none⟩).2 c5msgs 10000 true (by decide)
  rw [if_neg (by decide)] at h
  exact h

def c6local : EnvBackend :=
  { base_url := some "http://localhost:1234/v1", api_key := some "key",
    model := some "local-model" }

def c6unset : EnvBackend := { base_url := none, api_key := none, model := none }

def c6bigMsgs : List Msg :=
  [{ role := "user", tool_call_id := none,
     content := MsgContent.str "aaaaaaaaaaa" }]

/-- Counterexample for C6 as stated: with the remote backend
unconfigured and a message the length rule sends to remote (11
characters against a configured threshold of 10), the program does not
fall back to the local backend — startup aborts; no fallback path exists
in the source (`LLMRouter` requires both clients and `complete` always
uses the one the rule picks). -/
theorem no_general_backend_fallback :
    completeSelect c6bigMsgs false 10 true = Except.ok Chosen.remote ∧
      mainStartup c6local c6unset c6unset = none := by
  constructor
  · have h1 : hasImageContent c6bigMsgs = false := by decide
    have h2 : totalMessageLength c6bigMsgs > 10 := by decide
    simp [completeSelect, h1, h2]
  · rfl

/-! ## Page splitting (`task_executor._split_simple`, `_split_into_pages`) -/

/-- Python `data.split('\n')`: split the character list on every newline
(yielding `[""]` for the empty string, with empty trailing pieces kept). -/
def pySplitNL (s : String) : List String :=
  (s.data.splitOn '\n').map String.mk

/-- Python `'\n'.join(lines)`. -/
def pyJoinNL (l : List String) : String :=
  String.mk (List.intercalate ['\n'] (l.map String.data))

/-- The page-accumulation loop of `_split_simple` (lines 196-216) over
the line list: `cur` is `current_page`, `curSize` is `current_size`,
`pages` the pages built so far; a page is started afresh when adding the
line would exceed `page_size` and the current page is non-empty, and the
final `current_page` is appended when non-empty. -/
def splitLoop : List String → Nat → List String → Nat →
    List (List String) → List (List String)
  | [], _, cur, _, pages => if cur = [] then pages else pages ++ [cur]
  | line :: rest, page_size, cur, curSize, pages =>
    if curSize + (line.length + 1) > page_size ∧ cur ≠ [] then
      splitLoop rest page_size [line] (line.length + 1) (pages ++ [cur])
    else
      splitLoop rest page_size (cur ++ [line]) (curSize + (line.length + 1)) pages

/-- `_split_simple` (lines 185-217): pack the newline-split lines into
pages and join each page's lines with `'\n'.join`. -/
def splitSimple (data : String) (page_size : Nat) : List String :=
  (splitLoop (pySplitNL data) page_size [] 0 []).map pyJoinNL

/-- `_split_into_pages` (lines 113-136) on its deterministic path (the
optional Jina segmenter unconfigured — no `JINA_API_KEY` — which is the
default; the segmenter is an external network service): data fitting in
one page is returned whole, otherwise `_split_simple` splits it. -/
def splitIntoPages (data : String) (page_size : Nat) : List String :=
  if data.length ≤ page_size then [data] else splitSimple data page_size

lemma intercalate_cons_cons {α : Type} (x : α) (g h : List α)
    (t : List (List α)) :
    List.intercalate [x] (g :: h :: t) =
      g ++ x :: List.intercalate [x] (h :: t) := by
  simp [List.intercalate, List.intersperse]

lemma intercalate_append_of_ne_nil {α : Type} (x : α) (G L : List (List α))
    (hG : G ≠ []) (hL : L ≠ []) :
    List.intercalate [x] (G ++ L) =
      List.intercalate [x] G ++ x :: List.intercalate [x] L := by
  induction G with
  | nil => exact absurd rfl hG
  | cons a G2 ih =>
    cases G2 with
    | nil =>
      cases L with
      | nil => exact absurd rfl hL
      | cons b L2 =>
        rw [List.singleton_append, intercalate_cons_cons]
        simp [List.intercalate, List.intersperse]
    | cons c G3 =>
      have ih2 := ih (List.cons_ne_nil c G3)
      rw [List.cons_append] at ih2
      have hstep : (a :: c :: G3) ++ L = a :: c :: (G3 ++ L) := rfl
      rw [hstep, intercalate_cons_cons, ih2, intercalate_cons_cons,
        List.append_assoc]
      rfl

lemma intercalate_map_flatten {α : Type} (x : α) (gss : List (List (List α)))
    (h : ∀ g ∈ gss, g ≠ []) :
    List.intercalate [x] (gss.map (List.intercalate [x])) =
      List.intercalate [x] gss.flatten := by
  induction gss with
  | nil => rfl
  | cons g t ih =>
    cases t with
    | nil => simp [List.intercalate, List.intersperse]
    | cons g2 t2 =>
      have ih2 := ih (fun a ha => h a (List.mem_cons_of_mem _ ha))
      rw [List.map_cons] at ih2
      have hfl : (g2 :: t2).flatten ≠ [] := by
        rw [List.flatten_cons]
        exact List.append_ne_nil_of_left_ne_nil
          (h g2 (List.mem_cons_of_mem _ (List.mem_cons_self _ _))) _
      rw [List.map_cons, List.map_cons, intercalate_cons_cons, ih2,
        show (g :: g2 :: t2).flatten = g ++ (g2 :: t2).flatten from rfl,
        intercalate_append_of_ne_nil x g ((g2 :: t2).flatten)
          (h g (List.mem_cons_self _ _)) hfl]

lemma pyJoin_pySplit (s : String) : pyJoinNL (pySplitNL s) = s := by
  unfold pyJoinNL pySplitNL
  rw [List.map_map]
  have hid : (String.data ∘ String.mk) = id := rfl
  rw [hid, List.map_id, List.intercalate_splitOn]

lemma pyJoinNL_map_flatten (groups : List (List String))
    (h : ∀ g ∈ groups, g ≠ []) :
    pyJoinNL (groups.map pyJoinNL) = pyJoinNL groups.flatten := by
  unfold pyJoinNL
  rw [List.map_map]
  have h1 : (String.data ∘ fun l : List String => String.mk
      (List.intercalate ['\n'] (l.map String.data))) =
      fun l : List String => List.intercalate ['\n'] (l.map String.data) := rfl
  rw [h1]
  congr 1
  have h2 : groups.map
      (fun l : List String => List.intercalate ['\n'] (l.map String.data)) =
      (groups.map (List.map String.data)).map (List.intercalate ['\n']) := by
    rw [List.map_map]
    rfl
  rw [h2, intercalate_map_flatten, ← List.map_flatten]
  intro g hg
  rcases List.mem_map.mp hg with ⟨g0, hg0, rfl⟩
  simpa using h g0 hg0

lemma splitLoop_flatten (lines : List String) (ps : Nat) (cur : List String)
    (sz : Nat) (pages : List (List String)) :
    (splitLoop lines ps cur sz pages).flatten = pages.flatten ++ cur ++ lines := by
  induction lines generalizing cur sz pages with
  | nil =>
    unfold splitLoop
    by_cases hc : cur = [] <;> simp [hc]
  | cons line rest ih =>
    unfold splitLoop
    by_cases hb : sz + (line.length + 1) > ps ∧ cur ≠ []
    · rw [if_pos hb, ih]
      simp
    · rw [if_neg hb, ih]
      simp

lemma splitLoop_ne_nil (lines : List String) (ps : Nat) (cur : List String)
    (sz : Nat) (pages : List (List String)) (h : ∀ g ∈ pages, g ≠ []) :
    ∀ g ∈ splitLoop lines ps cur sz pages, g ≠ [] := by
  induction lines generalizing cur sz pages with
  | nil =>
    unfold splitLoop
    by_cases hc : cur = []
    · simpa [hc] using h
    · intro g hg
      rw [if_neg hc] at hg
      rcases List.mem_append.mp hg with hg | hg
      · exact h g hg
      · rcases List.mem_singleton.mp hg with rfl
        exact hc
  | cons line rest ih =>
    unfold splitLoop
    by_cases hb : sz + (line.length + 1) > ps ∧ cur ≠ []
    · rw [if_pos hb]
      refine ih _ _ _ ?_
      intro g hg
      rcases List.mem_append.mp hg with hg | hg
      · exact h g hg
      · rcases List.mem_singleton.mp hg with rfl
        exact hb.2
    · rw [if_neg hb]
      exact ih _ _ _ h

/-- C3 (amended): for any input and any `page_size ≥ 1`, joining the
pages produced by the splitter with a single newline between consecutive
pages reproduces the original input exactly — the pages partition the
input's lines in order, each boundary consuming the newline that
separated the two adjacent lines. -/
theorem pages_newline_join_round_trip (data : String) (page_size : Nat)
    (h : 1 ≤ page_size) :
    pyJoinNL (splitIntoPages data page_size) = data := by
  unfold splitIntoPages
  by_cases hle : data.length ≤ page_size
  · rw [if_pos hle]
    unfold pyJoinNL
    simp [List.intercalate, List.intersperse]
  · rw [if_neg hle]
    unfold splitSimple
    rw [pyJoinNL_map_flatten _ (splitLoop_ne_nil _ _ _ _ _ (by simp)),
      splitLoop_flatten]
    simpa using pyJoin_pySplit data

/-- Witness for C3 (amended): a three-line input split with
`page_size = 3` joins back to the original. -/
theorem pages_newline_join_round_trip_witness :
    pyJoinNL (splitIntoPages "a\nb\ncc" 3) = "a\nb\ncc" :=
  pages_newline_join_round_trip "a\nb\ncc" 3 (by decide)

/-- Counterexample for C3 as stated: plain concatenation of the page
texts does not reproduce the input — `_split_simple` drops the newline
at each page boundary (`"a\nb"` with `page_size = 1` splits into pages
`"a"` and `"b"`, which concatenate to `"ab"`). -/
theorem pages_plain_concat_loses_newlines :
    splitIntoPages "a\nb" 1 = ["a", "b"] ∧
      strConcat (splitIntoPages "a\nb" 1) = "ab" ∧
      ("ab" : String) ≠ "a\nb" := by
  refine ⟨rfl, rfl, by decide⟩

/-! ## Paged task execution (`task_executor.execute_task_with_paging`) -/

/-- The per-page prompt of line 100:
`f"{task_prompt}\n\n[Processing page {i} of {n}]"`, `i` 1-based. -/
def pagePrompt (task_prompt : String) (i n : Nat) : String :=
  task_prompt ++ "\n\n[Processing page " ++ toString i ++ " of " ++
    toString n ++ "]"

/-- The synthesis prompt of `_summarize_results` (lines 233-236). -/
def summaryPrompt (original_task : String) : String :=
  "The following are results from processing multiple pages of data for this task:\n"
    ++ original_task ++
    "\n\nPlease synthesize these results into a single, cohesive response."

/-- `_concatenate_results` (lines 219-222). -/
def concatenateResults (page_results : List String) : String :=
  String.intercalate "\n\n--- Page Break ---\n\n" page_results

/-- The page loop of `execute_task_with_paging` (lines 95-103) over the
enumerated pages.  Each page runs through the sub-invocation `ex`
(`execute_task`, lines 34-68 — an isolated single-shot completion,
abstracted here because it is a network call; a raised exception is
`.error`).  The loop has no handler, so the first error propagates and
later pages never run. -/
def pagingLoop (ex : String → String → Except String String)
    (task_prompt : String) (n : Nat) :
    List (Nat × String) → Except String (List String)
  | [] => Except.ok []
  | (i, page) :: rest =>
    match ex (pagePrompt task_prompt (i + 1) n) page with
    | Except.error e => Except.error e
    | Except.ok r =>
      match pagingLoop ex task_prompt n rest with
      | Except.error e => Except.error e
      | Except.ok rs => Except.ok (r :: rs)

/-- `execute_task_with_paging` (lines 70-111): split into pages, run
every page in index order through the sub-invocation, then aggregate —
`"concatenate"` joins with the page-break separator, `"summarize"` runs
one more sub-invocation over the joined results, anything else raises
`ValueError`. -/
def executeTaskWithPaging (ex : String → String → Except String String)
    (task_prompt data : String) (page_size : Nat)
    (aggregation_strategy : String) : Except String String :=
  match pagingLoop ex task_prompt (splitIntoPages data page_size).length
      (splitIntoPages data page_size).enum with
  | Except.error e => Except.error e
  | Except.ok results =>
    if aggregation_strategy = "concatenate" then
      Except.ok (concatenateResults results)
    else if aggregation_strategy = "summarize" then
      ex (summaryPrompt task_prompt) (concatenateResults results)
    else
      Except.error ("Unknown aggregation strategy: " ++ aggregation_strategy)

lemma pagingLoop_first_error (ex : String → String → Except String String)
    (tp : String) (n : Nat) (l : List (Nat × String)) (i : Nat) (e : String)
    (hi : i < l.length)
    (he : ex (pagePrompt tp ((l.get ⟨i, hi⟩).1 + 1) n) (l.get ⟨i, hi⟩).2 =
      Except.error e)
    (hprev : ∀ (j : Nat) (hj : j < i), ∃ r,
      ex (pagePrompt tp ((l.get ⟨j, Nat.lt_trans hj hi⟩).1 + 1) n)
        (l.get ⟨j, Nat.lt_trans hj hi⟩).2 = Except.ok r) :
    pagingLoop ex tp n l = Except.error e := by
  induction l generalizing i with
  | nil => exact absurd hi (Nat.not_lt_zero i)
  | cons hd rest ih =>
    obtain ⟨k, page⟩ := hd
    cases i with
    | zero =>
      have he0 : ex (pagePrompt tp (k + 1) n) page = Except.error e := by
        simpa using he
      unfold pagingLoop
      rw [he0]
    | succ i2 =>
      obtain ⟨r, hr⟩ := hprev 0 (Nat.succ_pos i2)
      have hr0 : ex (pagePrompt tp (k + 1) n) page = Except.ok r := by
        simpa using hr
      have hi2 : i2 < rest.length := by
        simpa [Nat.succ_lt_succ_iff] using hi
      have he2 : ex (pagePrompt tp ((rest.get ⟨i2, hi2⟩).1 + 1) n)
          (rest.get ⟨i2, hi2⟩).2 = Except.error e := by
        simpa using he
      have hprev2 : ∀ (j : Nat) (hj : j < i2), ∃ r2,
          ex (pagePrompt tp ((rest.get ⟨j, Nat.lt_trans hj hi2⟩).1 + 1) n)
            (rest.get ⟨j, Nat.lt_trans hj hi2⟩).2 = Except.ok r2 := by
        intro j hj
        obtain ⟨r2, hr2⟩ := hprev (j + 1) (Nat.succ_lt_succ hj)
        exact ⟨r2, by simpa using hr2⟩
      unfold pagingLoop
      rw [hr0, ih i2 hi2 he2 hprev2]

/-- C4 (amended): a page whose sub-invocation raises aborts the whole
paging operation — `execute_task_with_paging` has no per-page handler,
so the first raising page's error propagates out of the call, no
`PageResult` records the error text, and the results already computed
for earlier pages are discarded rather than aggregated. -/
theorem paging_aborts_on_page_error
    (ex : String → String → Except String String) (tp data : String)
    (ps : Nat) (agg : String) (i : Nat) (e : String)
    (hi : i < (splitIntoPages data ps).length)
    (he : ex (pagePrompt tp (i + 1) (splitIntoPages data ps).length)
      ((splitIntoPages data ps).get ⟨i, hi⟩) = Except.error e)
    (hprev : ∀ (j : Nat) (hj : j < i), ∃ r,
      ex (pagePrompt tp (j + 1) (splitIntoPages data ps).length)
        ((splitIntoPages data ps).get ⟨j, Nat.lt_trans hj hi⟩) =
          Except.ok r) :
    executeTaskWithPaging ex tp data ps agg = Except.error e := by
  have hi2 : i < (splitIntoPages data ps).enum.length := by simpa using hi
  have he2 : ex (pagePrompt tp
      (((splitIntoPages data ps).enum.get ⟨i, hi2⟩).1 + 1)
      (splitIntoPages data ps).length)
      ((splitIntoPages data ps).enum.get ⟨i, hi2⟩).2 = Except.error e := by
    simpa [List.getElem_enum] using he
  have hprev2 : ∀ (j : Nat) (hj : j < i), ∃ r,
      ex (pagePrompt tp
        (((splitIntoPages data ps).enum.get ⟨j, Nat.lt_trans hj hi2⟩).1 + 1)
        (splitIntoPages data ps).length)
        ((splitIntoPages data ps).enum.get ⟨j, Nat.lt_trans hj hi2⟩).2 =
          Except.ok r := by
    intro j hj
    obtain ⟨r, hr⟩ := hprev j hj
    exact ⟨r, by simpa [List.getElem_enum] using hr⟩
  unfold executeTaskWithPaging
  rw [pagingLoop_first_error ex tp (splitIntoPages data ps).length
    (splitIntoPages data ps).enum i e hi2 he2 hprev2]

/-- A sub-invocation stub that raises exactly on page text `"b"`. -/
def c4exec : String → String → Except String String :=
  fun _ page =>
    if page = "b" then Except.error "boom" else Except.ok ("ok:" ++ page)

/-- Witness for C4 (amended): with pages `["a", "b"]` and the
sub-invocation raising on the second page, the whole paging call returns
that error. -/
theorem paging_aborts_on_page_error_witness :
    executeTaskWithPaging c4exec "t" "a\nb" 1 "summarize" =
      Except.error "boom" :=
  paging_aborts_on_page_error c4exec "t" "a\nb" 1 "summarize" 1 "boom"
    (by decide) rfl
    (fun j hj => by
      have hj0 : j = 0 := Nat.lt_one_iff.mp hj
      subst hj0
      exact ⟨"ok:" ++ "a", rfl⟩)

/-- Counterexample for C4 as stated: page 2's sub-invocation raising
does not leave page 1's result in an aggregated output — the operation
aborts with the raw error and produces no result list at all (no
`PageResult` type exists in the source). -/
theorem paging_error_discards_completed_pages :
    executeTaskWithPaging c4exec "t" "a\nb" 1 "concatenate" =
      Except.error "boom" := by
  rfl

/-! ## Tool execution (`tool_router.execute_tool_calls`) -/

/-- One requested tool call (`tool_call.id`,
`tool_call.function.name`, `tool_call.function.arguments`). -/
structure ToolCall where
  id : String
  name : String
  arguments : String
  deriving DecidableEq, Repr

/-- The standardized dict a tool implementation returns through
`execute_tool_call`: a required `data` field plus the optional context
keys (`result.get("include_in_context", True)` defaults a missing key to
`True`). -/
structure ToolOutcome where
  data : String
  include_in_context : Option Bool
  stub_message : Option String
  context_guidance : Option String
  deriving DecidableEq, Repr

/-- One entry of the list `execute_tool_calls` returns (lines 217-256):
the success dict of lines 231-243 or the error dict of lines 247-255. -/
structure ToolCallResult where
  tool_call_id : String
  function_name : String
  arguments : String
  result : Option String
  error : Option String
  success : Bool
  include_in_context : Bool
  stub_message : String
  context_guidance : Option String
  deriving DecidableEq, Repr

/-- The success dict of `execute_tool_calls` lines 231-243. -/
def successResult (tc : ToolCall) (r : ToolOutcome) : ToolCallResult :=
  { tool_call_id := tc.id
    function_name := tc.name
    arguments := tc.arguments
    result := some r.data
    error := none
    success := true
    include_in_context := r.include_in_context.getD true
    stub_message := r.stub_message.getD
      ("[" ++ tc.name ++ " result from previous iteration]")
    context_guidance :=
      match r.context_guidance with
      | some g => if g = "" then none else some g
      | none => none }

/-- The error dict of `execute_tool_calls` lines 247-255. -/
def errorResult (tc : ToolCall) (e : String) : ToolCallResult :=
  { tool_call_id := tc.id
    function_name := tc.name
    arguments := tc.arguments
    result := none
    error := some e
    success := false
    include_in_context := true
    stub_message := "[Error from " ++ tc.name ++ "]"
    context_guidance := none }

/-- `execute_tool_calls` (lines 199-256) with the dispatch
`execute_tool_call` abstracted as `execFn` (it runs registered tool
implementations; any raised exception is `.error`).  A raising call is
recorded — never re-raised — as `errorResult`: `success=False`, the
error text, and `include_in_context=True` (line 253, always include
errors in context); a successful call carries the outcome's context
keys, with `context_guidance` kept only when truthy (line 242). -/
def execute_tool_calls (execFn : ToolCall → Except String ToolOutcome)
    (tool_calls : List ToolCall) : List ToolCallResult :=
  tool_calls.map (fun tc =>
    match execFn tc with
    | Except.ok r => successResult tc r
    | Except.error e => errorResult tc e)

/-- The `ToolResultMetadata` entry `main.py` stamps for one result at
the current iteration (lines 152-165). -/
def metadataOf (r : ToolCallResult) (iteration : Int) : ToolResultMetadata :=
  { include_in_context := r.include_in_context
    function_name := r.function_name
    stub_message := r.stub_message
    created_at_iteration := iteration
    context_guidance := r.context_guidance }

/-- C8: a tool call whose execution raises yields a result with
`include_in_context = True` and `success = False`, and any message whose
metadata entry was stamped from such a result is never stubbed by
`build_context`, at any iteration — tool errors always stay fully
visible. -/
theorem tool_errors_never_stubbed
    (execFn : ToolCall → Except String ToolOutcome) (tcs : List ToolCall)
    (i : Nat) (tc : ToolCall) (r : ToolCallResult) (e : String)
    (htc : tcs[i]? = some tc) (he : execFn tc = Except.error e)
    (hr : (execute_tool_calls execFn tcs)[i]? = some r) :
    r.include_in_context = true ∧ r.success = false ∧
    ∀ (meta : String → Option ToolResultMetadata) (iter k : Int) (m : Msg),
      meta (m.tool_call_id.getD "") = some (metadataOf r iter) →
      buildContextMsg meta k m = m := by
  rw [execute_tool_calls, List.getElem?_map, htc] at hr
  have hr2 : (match execFn tc with
      | Except.ok r => successResult tc r
      | Except.error e => errorResult tc e) = r := by
    simpa using hr
  rw [he] at hr2
  have hr3 : r = errorResult tc e := hr2.symm
  subst hr3
  refine ⟨rfl, rfl, ?_⟩
  intro meta iter k m hm
  by_cases hrole : m.role = "tool"
  · rw [buildContextMsg_cases meta k m (metadataOf (errorResult tc e) iter)
      hrole hm, if_neg]
    rintro ⟨h1, _⟩
    simp [metadataOf, errorResult] at h1
  · unfold buildContextMsg
    rw [if_neg hrole]

def c8tc : ToolCall := { id := "tid1", name := "read_file", arguments := "x" }

def c8exec : ToolCall → Except String ToolOutcome :=
  fun _ => Except.error "boom"

def c8res : ToolCallResult :=
  { tool_call_id := "tid1", function_name := "read_file", arguments := "x",
    result := none, error := some "boom", success := false,
    include_in_context := true, stub_message := "[Error from read_file]",
    context_guidance := none }

def c8meta : String → Option ToolResultMetadata :=
  fun s => if s = "tid1" then some (metadataOf c8res 3) else none

def c8msg : Msg :=
  { role := "tool", tool_call_id := some "tid1",
    content := MsgContent.str "Error: boom" }

/-- Witness for C8: a raising `read_file` call produces the error
result, and its tool message survives projection in full six iterations
later. -/
theorem tool_errors_never_stubbed_witness :
    c8res.include_in_context = true ∧ c8res.success = false ∧
      buildContextMsg c8meta 9 c8msg = c8msg := by
  obtain ⟨h1, h2, h3⟩ :=
    tool_errors_never_stubbed c8exec [c8tc] 0 c8tc c8res "boom" rfl rfl rfl
  exact ⟨h1, h2, h3 c8meta 3 9 c8msg (by decide)⟩

end HyperfocusAgent
